import Mathlib

/-!
Verification development for the pyramid highlight server (`src/server.py`).

The server keeps, per room, a pyramid shape (`layers`, `bottom_size`), a set
of highlighted circle ids (strings of the form `<layer>-<index>`), and a set
of connected clients.  Pure rule-engine functions decide whether a circle may
be selected or deselected; a websocket message loop dispatches inbound
messages, mutates the room under a lock and broadcasts the outcome.

Strings are modelled as `List Char` (Python `str` is a sequence of code
points; this avoids any dependence on Lean's `String` internals).  Python
`set` objects are modelled as `List`s whose elements are treated as a set:
membership is list membership, removal removes every equal element.  All
reachable highlight sets are duplicate-free because elements are inserted
only when absent.
-/

/-- A circle id as transmitted over the wire: a Python string, modelled as a
list of characters. -/
abbrev CircleId := List Char

/-- Value of a decimal digit character, `none` for any other character.
Models the digit fragment of Python `int()` (the forms actually produced and
consumed by the server are plain decimal digit runs). -/
def digitVal (c : Char) : Option Nat :=
  if '0' ≤ c ∧ c ≤ '9' then some (c.toNat - '0'.toNat) else none

/-- Accumulator loop of decimal parsing: consume characters left to right,
failing on the first non-digit. -/
def parseDigitsAcc (acc : Nat) : List Char → Option Nat
  | [] => some acc
  | c :: rest =>
    match digitVal c with
    | some d => parseDigitsAcc (acc * 10 + d) rest
    | none => none

/-- Parse a non-empty run of decimal digits, as Python `int(s)` does on the
strings this server produces; the empty string fails (as `int("")` does). -/
def parseNatDigits (s : List Char) : Option Nat :=
  match s with
  | [] => none
  | _ => parseDigitsAcc 0 s

/-- Model of Python `str.split('-')`: cut the character list at every `'-'`.
`splitDash [] = [[]]` just as `"".split('-') == [""]`. -/
def splitDash : List Char → List (List Char)
  | [] => [[]]
  | c :: rest =>
    if c = '-' then [] :: splitDash rest
    else
      match splitDash rest with
      | [] => [[c]]
      | h :: t => (c :: h) :: t

/-- Model of `layer, index = map(int, circle_id.split('-'))` from the
`circle_toggle` handler: the split must yield exactly two parts and both must
parse as (non-negative) integers; otherwise the Python code raises and the
handler answers with an `Invalid circleId format` error. -/
def parseCircleId (cid : CircleId) : Option (Nat × Nat) :=
  match splitDash cid with
  | [a, b] =>
    match parseNatDigits a, parseNatDigits b with
    | some l, some i => some (l, i)
    | _, _ => none
  | _ => none

/-- Fuel-driven digit loop for decimal formatting; the fuel only bounds the
recursion depth (structural recursion keeps the function computable by the
kernel), and any fuel exceeding the value is equivalent. -/
def natToCharsF : Nat → Nat → List Char
  | 0, _ => []
  | fuel + 1, n =>
    if n < 10 then [Nat.digitChar n]
    else natToCharsF fuel (n / 10) ++ [Nat.digitChar (n % 10)]

/-- Decimal digits of `n`, most significant first: model of Python decimal
formatting `f"{n}"` for a non-negative integer. -/
def natToChars (n : Nat) : List Char :=
  natToCharsF (n + 1) n

/-- Model of the canonical serialization `f"{layer}-{index}"` used throughout
the rule engine. -/
def serialize (layer index : Nat) : CircleId :=
  natToChars layer ++ '-' :: natToChars index

/-- Per-room mutable state of `server.py`'s `Room` dataclass, restricted to
the fields the rule engine and message handlers read or write (`highlighted`,
`layers`, `bottom_size`).  The client registry and the `asyncio.Lock` are
modelled separately: clients by the broadcast fan-out model below, the lock
by explicit acquire/release events in the handler's event trace. -/
structure Room where
  highlighted : List CircleId
  layers : Nat
  bottom_size : Nat
deriving DecidableEq

/-- The bound `layer_below_size = room.bottom_size + (layer - 1)` computed by
both `can_highlight_circle` and `can_highlight_circle_with_set` for a cell at
`layer`: the number of valid indices of layer `layer - 1`. -/
def layer_below_size (room : Room) (layer : Nat) : Nat :=
  room.bottom_size + (layer - 1)

/-- The `connected_below` list built by the engine for a cell `(layer,
index)` with `layer > 0`: the adjacency-below cells `(layer-1, index-1)` and
`(layer-1, index)`, each kept only when its index is inside the valid range
of the layer below. -/
def connectedBelow (room : Room) (layer index : Nat) : List (Nat × Nat) :=
  (if 0 < index ∧ index - 1 < layer_below_size room layer
    then [(layer - 1, index - 1)] else []) ++
  (if index < layer_below_size room layer
    then [(layer - 1, index)] else [])

/-- Structured counterpart of the human-readable `reason` strings returned by
`can_highlight_circle`; each constructor stands for one of the f-strings of
the source, carrying exactly the data interpolated into it. -/
inductive Reason
  | bottomLayer
  | connectedTo (ids : List CircleId)
  | noConnected (required : List CircleId)
deriving DecidableEq

/-- `can_highlight_circle(room, layer, index)`: selection check against the
room's current highlight set. -/
def can_highlight_circle (room : Room) (layer index : Nat) : Bool × Reason :=
  if layer = 0 then (true, Reason.bottomLayer)
  else
    let connected_highlighted :=
      ((connectedBelow room layer index).filter
        (fun p => decide (serialize p.1 p.2 ∈ room.highlighted))).map
          (fun p => serialize p.1 p.2)
    if connected_highlighted ≠ [] then (true, Reason.connectedTo connected_highlighted)
    else
      (false, Reason.noConnected
        ((connectedBelow room layer index).map (fun p => serialize p.1 p.2)))

/-- `can_highlight_circle_with_set(room, layer, index, highlighted_set)`:
the same adjacency check, but against an explicit snapshot set. -/
def can_highlight_circle_with_set (room : Room) (layer index : Nat)
    (highlighted_set : List CircleId) : Bool :=
  if layer = 0 then true
  else (connectedBelow room layer index).any
    (fun p => decide (serialize p.1 p.2 ∈ highlighted_set))

/-- Python set difference `s - {x}` on the list-as-set model: drop every
element equal to `x`. -/
def setDiff (s : List CircleId) (x : CircleId) : List CircleId :=
  s.filter (fun y => decide (y ≠ x))

/-- `has_dependent_circles(room, layer, index)`: the deselection check.  Every
member of the highlight set strictly above `layer` is re-checked against the
set with the canonical id `f"{layer}-{index}"` removed; members without
support there are collected as blockers.  Members that do not parse are
skipped here; in Python they would raise `ValueError`, but every reachable
set member was inserted only after parsing successfully. -/
def has_dependent_circles (room : Room) (layer index : Nat) :
    Bool × List CircleId :=
  let dependent := room.highlighted.filter (fun hid =>
    match parseCircleId hid with
    | some (h_layer, h_index) =>
      decide (h_layer > layer) &&
        !(can_highlight_circle_with_set room h_layer h_index
            (setDiff room.highlighted (serialize layer index)))
    | none => false)
  (decide (dependent.length > 0), dependent)

/-- Role stored in a session record by the login endpoints: `"player"` or
`"dm"`; the `pyramid_config` handler compares it against `"dm"`. -/
inductive Role
  | dm
  | player
deriving DecidableEq

/-- Destination of one outbound frame: a private reply to the sending client
(`safe_send(ws, ...)`) or a fan-out to the whole room (`broadcast(room, ...)`). -/
inductive Target
  | sender
  | roomAll
deriving DecidableEq

/-- Structured counterparts of the `error` message texts of the handler;
each constructor stands for one literal message string of the source. -/
inductive ErrMsg
  | invalidJSON
  | missingType
  | circleIdNotString
  | invalidCircleIdFormat
  | onlyDMCanConfigure
  | layersNotPositive
  | bottomSizeNotPositive
  | unknownType (t : CircleId)
deriving DecidableEq

/-- Structured counterpart of the `reason` strings of `toggle_rejected`
frames: `"Cannot deselect: circles above depend on it: ..."` carrying the
blocker list, or `"Cannot select: ..."` carrying the engine's reason. -/
inductive RejectReason
  | cannotDeselect (dependents : List CircleId)
  | cannotSelect (r : Reason)
deriving DecidableEq

/-- Outbound protocol frames of §6, with the interpolated data carried
structurally. -/
inductive Outbound
  | state_sync (highlighted : List CircleId) (layers bottomSize : Nat)
  | circle_toggled (circleId : CircleId) (isHighlighted : Bool)
  | toggle_rejected (circleId : CircleId) (reason : RejectReason)
  | config_sync (layers bottomSize : Nat)
  | pong
  | error (message : ErrMsg)
deriving DecidableEq

/-- Atomic effects of one pass through the receive loop, in program order:
acquiring and releasing `room.lock`, and attempting a network send (a private
`safe_send` to the sender or a `broadcast` fan-out to the room). -/
inductive Event
  | acquire
  | release
  | send (t : Target) (m : Outbound)
deriving DecidableEq

/-- One inbound frame as the receive loop classifies it: non-JSON text,
JSON without a string `type`, the four recognized types (with their payloads
as the handler extracts them: `none` marks a payload field of the wrong
JSON type), or a recognized-shape message with an unknown `type` string. -/
inductive Inbound
  | malformed
  | badType
  | circle_toggle (circleId : Option CircleId)
  | pyramid_config (layers bottomSize : Option Int)
  | state_request
  | ping
  | unknown (t : CircleId)
deriving DecidableEq

/-- Result of processing one inbound message: the room state afterwards, the
trace of lock and send effects in program order, and whether the receive
loop keeps running (every handler branch of the source falls through to the
next `await ws.receive_text()`). -/
structure StepResult where
  room : Room
  events : List Event
  continueLoop : Bool
deriving DecidableEq

/-- Lexicographic (code-point) order on character lists: Python's `<=` on
strings, as used by `sorted(room.highlighted)`. -/
def lexLe : List Char → List Char → Bool
  | [], _ => true
  | _ :: _, [] => false
  | a :: as, b :: bs => if a = b then lexLe as bs else decide (a < b)

/-- Insertion step of a simple stable sort. -/
def insertSorted (a : CircleId) : List CircleId → List CircleId
  | [] => [a]
  | b :: bs => if lexLe a b then a :: b :: bs else b :: insertSorted a bs

/-- Model of Python `sorted(room.highlighted)`: the set's elements in
code-point order. -/
def sortedHighlighted (l : List CircleId) : List CircleId :=
  l.foldr insertSorted []

/-- The `state_sync` frame built from a room, as sent on connect and for
`state_request`. -/
def snapshotMsg (room : Room) : Outbound :=
  Outbound.state_sync (sortedHighlighted room.highlighted) room.layers room.bottom_size

/-- One iteration of the `ws_room` receive loop for an authenticated client
of `role` in a room with state `room`, transcribed branch by branch from the
source.  Lock acquisition and every send attempt appear in the event trace in
program order; in particular the `toggle_rejected` replies are emitted
between `acquire` and `release` because the `continue` statements sit inside
the `async with room.lock` block, while the `broadcast` calls sit after it. -/
def handleMessage (role : Role) (room : Room) : Inbound → StepResult
  | Inbound.malformed =>
    ⟨room, [Event.send Target.sender (Outbound.error ErrMsg.invalidJSON)], true⟩
  | Inbound.badType =>
    ⟨room, [Event.send Target.sender (Outbound.error ErrMsg.missingType)], true⟩
  | Inbound.circle_toggle none =>
    ⟨room, [Event.send Target.sender (Outbound.error ErrMsg.circleIdNotString)], true⟩
  | Inbound.circle_toggle (some cid) =>
    match parseCircleId cid with
    | none =>
      ⟨room, [Event.send Target.sender (Outbound.error ErrMsg.invalidCircleIdFormat)], true⟩
    | some (layer, index) =>
      if cid ∈ room.highlighted then
        if (has_dependent_circles room layer index).1 then
          ⟨room,
           [Event.acquire,
            Event.send Target.sender (Outbound.toggle_rejected cid
              (RejectReason.cannotDeselect (has_dependent_circles room layer index).2)),
            Event.release],
           true⟩
        else
          ⟨{ room with highlighted := setDiff room.highlighted cid },
           [Event.acquire, Event.release,
            Event.send Target.roomAll (Outbound.circle_toggled cid false)],
           true⟩
      else
        if (can_highlight_circle room layer index).1 then
          ⟨{ room with highlighted := room.highlighted ++ [cid] },
           [Event.acquire, Event.release,
            Event.send Target.roomAll (Outbound.circle_toggled cid true)],
           true⟩
        else
          ⟨room,
           [Event.acquire,
            Event.send Target.sender (Outbound.toggle_rejected cid
              (RejectReason.cannotSelect (can_highlight_circle room layer index).2)),
            Event.release],
           true⟩
  | Inbound.pyramid_config layersV bottomV =>
    if role = Role.dm then
      match layersV with
      | none =>
        ⟨room, [Event.send Target.sender (Outbound.error ErrMsg.layersNotPositive)], true⟩
      | some l =>
        if l < 1 then
          ⟨room, [Event.send Target.sender (Outbound.error ErrMsg.layersNotPositive)], true⟩
        else
          match bottomV with
          | none =>
            ⟨room, [Event.send Target.sender (Outbound.error ErrMsg.bottomSizeNotPositive)], true⟩
          | some b =>
            if b < 1 then
              ⟨room, [Event.send Target.sender (Outbound.error ErrMsg.bottomSizeNotPositive)], true⟩
            else
              ⟨{ highlighted := [], layers := l.toNat, bottom_size := b.toNat },
               [Event.acquire, Event.release,
                Event.send Target.roomAll (Outbound.config_sync l.toNat b.toNat)],
               true⟩
    else
      ⟨room, [Event.send Target.sender (Outbound.error ErrMsg.onlyDMCanConfigure)], true⟩
  | Inbound.state_request =>
    ⟨room, [Event.send Target.sender (snapshotMsg room)], true⟩
  | Inbound.ping =>
    ⟨room, [Event.send Target.sender Outbound.pong], true⟩
  | Inbound.unknown t =>
    ⟨room, [Event.send Target.sender (Outbound.error (ErrMsg.unknownType t))], true⟩

/-- The send attempts of a trace, in order. -/
def sendEvents : List Event → List (Target × Outbound)
  | [] => []
  | Event.send t m :: r => (t, m) :: sendEvents r
  | _ :: r => sendEvents r

/-- The send attempts of a trace, each tagged with whether `room.lock` was
held at that point; the first argument is whether the lock is held on entry. -/
def sendsWithHeld : Bool → List Event → List (Target × Outbound × Bool)
  | _, [] => []
  | _, Event.acquire :: r => sendsWithHeld true r
  | _, Event.release :: r => sendsWithHeld false r
  | held, Event.send t m :: r => (t, m, held) :: sendsWithHeld held r

/-- Frames the protocol delivers by room-wide broadcast. -/
def broadcastClass : Outbound → Bool
  | Outbound.circle_toggled _ _ => true
  | Outbound.config_sync _ _ => true
  | _ => false

/-- Frames the protocol delivers as a private reply to the sender. -/
def replyClass : Outbound → Bool
  | Outbound.toggle_rejected _ _ => true
  | Outbound.state_sync _ _ _ => true
  | Outbound.pong => true
  | Outbound.error _ => true
  | _ => false

/-- Whether a frame is a `toggle_rejected` reply. -/
def isToggleRejected : Outbound → Bool
  | Outbound.toggle_rejected _ _ => true
  | _ => false

/-- Whether a trace contains a `toggle_rejected` reply to the sender. -/
def hasRejection (evs : List Event) : Bool :=
  evs.any fun e =>
    match e with
    | Event.send Target.sender (Outbound.toggle_rejected _ _) => true
    | _ => false

/-- Opaque handle of one connected websocket. -/
abbrev ClientId := Nat

/-- Opaque room identifier. -/
abbrev RoomId := Nat

/-- `safe_send`: one send attempt whose transport outcome is `deliver c`
(`none` models a raised exception); the exception is swallowed and reported
as `false`, never propagated. -/
def safe_send (deliver : ClientId → Option Unit) (c : ClientId) : Bool :=
  match deliver c with
  | some _ => true
  | none => false

/-- `broadcast(room, message)` over a room's client registry: iterate a
snapshot of the registry, attempt `safe_send` to each client in turn,
collect the clients whose send failed, then discard each of them from the
registry.  Returns the snapshot of attempted clients (in iteration order)
and the registry after pruning. -/
def broadcastClients (deliver : ClientId → Option Unit) (clients : List ClientId) :
    List ClientId × List ClientId :=
  let dead := clients.foldl (fun d c => if safe_send deliver c then d else d ++ [c]) []
  (clients, dead.foldl (fun cs c => cs.filter (fun x => decide (x ≠ c))) clients)

/-- Broadcast at the level of the process-wide room registry (`rooms`): only
the addressed room's client set is touched.  Returns the updated registry and
the list of clients to whom delivery was attempted. -/
def broadcastRoom (reg : RoomId → List ClientId) (r : RoomId)
    (deliver : ClientId → Option Unit) : (RoomId → List ClientId) × List ClientId :=
  ((fun r2 => if r2 = r then (broadcastClients deliver (reg r)).2 else reg r2),
   (broadcastClients deliver (reg r)).1)

/-- Modelled from the spec (§3): the width of layer `L` as claimed by the
sentence "Within layer L, valid indices run `0 .. (bottomSize + L - 1) - 1`",
i.e. `bottomSize + L - 1` slots (natural subtraction).  Kept separate from
the engine's own bound so the two can be compared. -/
def spec_layer_width (bottomSize L : Nat) : Nat :=
  bottomSize + L - 1

/-- The width of layer `L` actually enforced by the rule engine: a cell at
layer `L + 1` computes `layer_below_size = bottom_size + L`, so layer `L` has
valid indices `0 .. (bottomSize + L) - 1`. -/
def engine_layer_width (bottomSize L : Nat) : Nat :=
  bottomSize + L

theorem digitVal_digitChar (d : Nat) (hd : d < 10) :
    digitVal (Nat.digitChar d) = some d := by
  interval_cases d <;> decide

theorem digitChar_ne_dash (d : Nat) (hd : d < 10) : Nat.digitChar d ≠ '-' := by
  interval_cases d <;> decide

theorem natToCharsF_irrel (n : Nat) : ∀ f1 f2 : Nat, n < f1 → n < f2 →
    natToCharsF f1 n = natToCharsF f2 n := by
  induction n using Nat.strong_induction_on with
  | _ n ih =>
    intro f1 f2 h1 h2
    cases f1 with
    | zero => omega
    | succ g1 =>
      cases f2 with
      | zero => omega
      | succ g2 =>
        simp only [natToCharsF]
        by_cases h10 : n < 10
        · rw [if_pos h10, if_pos h10]
        · rw [if_neg h10, if_neg h10]
          have hd : n / 10 < n := Nat.div_lt_self (by omega) (by omega)
          rw [ih (n / 10) hd g1 g2 (by omega) (by omega)]

/-- The defining recursion of `natToChars`, independent of fuel. -/
theorem natToChars_eq_rec (n : Nat) :
    natToChars n = if n < 10 then [Nat.digitChar n]
      else natToChars (n / 10) ++ [Nat.digitChar (n % 10)] := by
  unfold natToChars
  conv_lhs => rw [natToCharsF]
  by_cases h10 : n < 10
  · rw [if_pos h10, if_pos h10]
  · rw [if_neg h10, if_neg h10]
    have hd : n / 10 < n := Nat.div_lt_self (by omega) (by omega)
    rw [natToCharsF_irrel (n / 10) n (n / 10 + 1) (by omega) (by omega)]

theorem dash_not_mem_natToChars (n : Nat) : '-' ∉ natToChars n := by
  induction n using Nat.strong_induction_on with
  | _ n ih =>
    rw [natToChars_eq_rec]
    split
    · intro hmem
      exact digitChar_ne_dash n (by assumption) (List.mem_singleton.mp hmem).symm
    · intro hmem
      rcases List.mem_append.mp hmem with h1 | h2
      · exact ih (n / 10) (Nat.div_lt_self (by omega) (by omega)) h1
      · exact digitChar_ne_dash (n % 10) (Nat.mod_lt _ (by omega))
          (List.mem_singleton.mp h2).symm

theorem natToChars_ne_nil (n : Nat) : natToChars n ≠ [] := by
  rw [natToChars_eq_rec]
  split
  · simp
  · simp

theorem parseDigitsAcc_append (xs ys : List Char) (acc : Nat) :
    parseDigitsAcc acc (xs ++ ys) =
      match parseDigitsAcc acc xs with
      | some m => parseDigitsAcc m ys
      | none => none := by
  induction xs generalizing acc with
  | nil => simp [parseDigitsAcc]
  | cons c cs ih =>
    simp only [List.cons_append, parseDigitsAcc]
    cases digitVal c with
    | some d => exact ih _
    | none => rfl

theorem parseDigitsAcc_natToChars (n : Nat) : ∀ acc : Nat,
    parseDigitsAcc acc (natToChars n) =
      some (acc * 10 ^ (natToChars n).length + n) := by
  induction n using Nat.strong_induction_on with
  | _ n ih =>
    intro acc
    rw [natToChars_eq_rec]
    split
    · next h =>
      simp only [parseDigitsAcc, digitVal_digitChar n h, List.length_singleton]
      simp [parseDigitsAcc]
    · next h =>
      rw [parseDigitsAcc_append]
      rw [ih (n / 10) (Nat.div_lt_self (by omega) (by omega)) acc]
      simp only [parseDigitsAcc, digitVal_digitChar (n % 10) (Nat.mod_lt _ (by omega))]
      have hdm : 10 * (n / 10) + n % 10 = n := Nat.div_add_mod n 10
      have hlen : (natToChars (n / 10) ++ [Nat.digitChar (n % 10)]).length
          = (natToChars (n / 10)).length + 1 := by simp
      rw [hlen, pow_succ]
      congr 1
      ring_nf
      omega

theorem parseNatDigits_natToChars (n : Nat) :
    parseNatDigits (natToChars n) = some n := by
  unfold parseNatDigits
  split
  · next heq => exact absurd heq (natToChars_ne_nil n)
  · rw [parseDigitsAcc_natToChars]
    simp

theorem splitDash_nodash (xs : List Char) (h : '-' ∉ xs) : splitDash xs = [xs] := by
  induction xs with
  | nil => rfl
  | cons c cs ih =>
    have hc : ¬ c = '-' := fun hh => h (hh ▸ List.mem_cons_self c cs)
    have hcs : '-' ∉ cs := fun hh => h (List.mem_cons_of_mem c hh)
    simp only [splitDash, if_neg hc, ih hcs]

theorem splitDash_append (xs ys : List Char) (h : '-' ∉ xs) :
    splitDash (xs ++ '-' :: ys) = xs :: splitDash ys := by
  induction xs with
  | nil => simp [splitDash]
  | cons c cs ih =>
    have hc : ¬ c = '-' := fun hh => h (hh ▸ List.mem_cons_self c cs)
    have hcs : '-' ∉ cs := fun hh => h (List.mem_cons_of_mem c hh)
    simp only [List.cons_append, splitDash, if_neg hc, List.append_eq, ih hcs]

/-- Parsing is a left inverse of the canonical serialization: the id the
engine writes for a cell is read back as exactly that cell. -/
theorem parseCircleId_serialize (l i : Nat) :
    parseCircleId (serialize l i) = some (l, i) := by
  unfold parseCircleId serialize
  rw [splitDash_append _ _ (dash_not_mem_natToChars l),
    splitDash_nodash _ (dash_not_mem_natToChars i)]
  simp [parseNatDigits_natToChars]

theorem mem_connectedBelow (room : Room) (layer index : Nat) (p : Nat × Nat) :
    p ∈ connectedBelow room layer index ↔
      ((0 < index ∧ index - 1 < layer_below_size room layer) ∧
        p = (layer - 1, index - 1)) ∨
      (index < layer_below_size room layer ∧ p = (layer - 1, index)) := by
  unfold connectedBelow
  split <;> split <;> simp_all

/-- C1 (the selection rule): `can_highlight_circle` allows a cell exactly
when it is on the bottom layer or one of its in-range adjacency-below cells
is highlighted. -/
theorem can_highlight_circle_spec (room : Room) (layer index : Nat) :
    (can_highlight_circle room layer index).1 = true ↔
      (layer = 0 ∨
        (0 < index ∧ index - 1 < room.bottom_size + (layer - 1) ∧
          serialize (layer - 1) (index - 1) ∈ room.highlighted) ∨
        (index < room.bottom_size + (layer - 1) ∧
          serialize (layer - 1) index ∈ room.highlighted)) := by
  by_cases h0 : layer = 0
  · simp [can_highlight_circle, h0]
  · simp only [can_highlight_circle, if_neg h0]
    split
    · next hne =>
      simp only [true_iff]
      simp only [ne_eq, List.map_eq_nil_iff, List.filter_eq_nil_iff] at hne
      push_neg at hne
      obtain ⟨p, hp, hdec⟩ := hne
      rw [mem_connectedBelow] at hp
      right
      rcases hp with ⟨⟨hpos, hlt⟩, rfl⟩ | ⟨hlt, rfl⟩
      · left
        exact ⟨hpos, hlt, by simpa using hdec⟩
      · right
        exact ⟨hlt, by simpa using hdec⟩
    · next hne =>
      simp only [ne_eq, not_not] at hne
      rw [List.map_eq_nil_iff, List.filter_eq_nil_iff] at hne
      constructor
      · intro hfalse
        simp at hfalse
      · rintro (h | ⟨hpos, hlt, hmem⟩ | ⟨hlt, hmem⟩)
        · exact absurd h h0
        · have := hne (layer - 1, index - 1)
            (by rw [mem_connectedBelow]; exact Or.inl ⟨⟨hpos, hlt⟩, rfl⟩)
          simp at this
          exact absurd hmem this
        · have := hne (layer - 1, index)
            (by rw [mem_connectedBelow]; exact Or.inr ⟨hlt, rfl⟩)
          simp at this
          exact absurd hmem this

theorem can_highlight_circle_with_set_iff (room : Room) (layer index : Nat)
    (hs : List CircleId) :
    can_highlight_circle_with_set room layer index hs = true ↔
      (layer = 0 ∨
        (0 < index ∧ index - 1 < room.bottom_size + (layer - 1) ∧
          serialize (layer - 1) (index - 1) ∈ hs) ∨
        (index < room.bottom_size + (layer - 1) ∧
          serialize (layer - 1) index ∈ hs)) := by
  by_cases h0 : layer = 0
  · simp [can_highlight_circle_with_set, h0]
  · simp only [can_highlight_circle_with_set, if_neg h0, List.any_eq_true]
    constructor
    · rintro ⟨p, hp, hdec⟩
      rw [mem_connectedBelow] at hp
      right
      rcases hp with ⟨⟨hpos, hlt⟩, rfl⟩ | ⟨hlt, rfl⟩
      · exact Or.inl ⟨hpos, by simpa [layer_below_size] using hlt, by simpa using hdec⟩
      · exact Or.inr ⟨by simpa [layer_below_size] using hlt, by simpa using hdec⟩
    · rintro (h | ⟨hpos, hlt, hmem⟩ | ⟨hlt, hmem⟩)
      · exact absurd h h0
      · exact ⟨(layer - 1, index - 1),
          by rw [mem_connectedBelow]
             exact Or.inl ⟨⟨hpos, by simpa [layer_below_size] using hlt⟩, rfl⟩,
          by simpa using hmem⟩
      · exact ⟨(layer - 1, index),
          by rw [mem_connectedBelow]
             exact Or.inr ⟨by simpa [layer_below_size] using hlt, rfl⟩,
          by simpa using hmem⟩

/-- C2 (the deselection rule): the blockers reported by
`has_dependent_circles` for deselecting `(layer, index)` are exactly the
highlighted ids that parse to a strictly higher layer and have no in-range
adjacency-below support in the set with the canonical id of `(layer, index)`
removed; the boolean is set iff that list is non-empty (so the whole list is
reported, each member judged only by its direct adjacency, with no cascade);
layer-0 ids are never blockers; and the `circle_toggle` handler rejects a
deselection exactly when the list is non-empty. -/
theorem has_dependent_circles_spec (room : Room) (layer index : Nat) (role : Role)
    (hpar : ∀ id ∈ room.highlighted, (parseCircleId id).isSome) :
    ((has_dependent_circles room layer index).1 = true ↔
      (has_dependent_circles room layer index).2 ≠ []) ∧
    (∀ h, h ∈ (has_dependent_circles room layer index).2 ↔
      (h ∈ room.highlighted ∧ ∃ hl hi, parseCircleId h = some (hl, hi) ∧
        layer < hl ∧
        ¬ ((0 < hi ∧ hi - 1 < room.bottom_size + (hl - 1) ∧
              serialize (hl - 1) (hi - 1) ∈
                setDiff room.highlighted (serialize layer index)) ∨
           (hi < room.bottom_size + (hl - 1) ∧
              serialize (hl - 1) hi ∈
                setDiff room.highlighted (serialize layer index))))) ∧
    (∀ h ∈ (has_dependent_circles room layer index).2,
      ∀ hl hi, parseCircleId h = some (hl, hi) → 0 < hl) ∧
    (∀ cid, cid ∈ room.highlighted → parseCircleId cid = some (layer, index) →
      (hasRejection (handleMessage role room (Inbound.circle_toggle (some cid))).events
          = true ↔
        (has_dependent_circles room layer index).2 ≠ [])) := by
  refine ⟨?_, ?_, ?_, ?_⟩
  · simp only [has_dependent_circles, decide_eq_true_eq, gt_iff_lt]
    rw [List.length_pos]
  · intro h
    simp only [has_dependent_circles, List.mem_filter]
    cases hph : parseCircleId h with
    | none =>
      simp only [hph]
      constructor
      · rintro ⟨-, hfalse⟩
        cases hfalse
      · rintro ⟨-, hl, hi, hsome, -⟩
        cases hsome
    | some li =>
      obtain ⟨hl, hi⟩ := li
      simp only [hph, Bool.and_eq_true, decide_eq_true_eq, gt_iff_lt,
        Bool.not_eq_true']
      constructor
      · rintro ⟨hmem, hgt, hcan⟩
        refine ⟨hmem, hl, hi, rfl, hgt, ?_⟩
        intro hsup
        have : can_highlight_circle_with_set room hl hi
            (setDiff room.highlighted (serialize layer index)) = true := by
          rw [can_highlight_circle_with_set_iff]
          exact Or.inr hsup
        rw [this] at hcan
        cases hcan
      · rintro ⟨hmem, hl', hi', hsome, hgt, hnsup⟩
        obtain ⟨rfl, rfl⟩ : hl' = hl ∧ hi' = hi := by
          constructor <;> injection hsome with h1 <;> injection h1 <;> simp_all
        refine ⟨hmem, hgt, ?_⟩
        rw [← Bool.not_eq_true]
        intro hcan
        rw [can_highlight_circle_with_set_iff] at hcan
        rcases hcan with h0 | hsup
        · omega
        · exact hnsup hsup
  · intro h hmem hl hi hph
    rw [has_dependent_circles, List.mem_filter] at hmem
    obtain ⟨-, hpred⟩ := hmem
    rw [hph] at hpred
    simp only [Bool.and_eq_true, decide_eq_true_eq, gt_iff_lt] at hpred
    omega
  · intro cid hmem hparse
    simp only [handleMessage, hparse, if_pos hmem]
    by_cases hd : (has_dependent_circles room layer index).1 = true
    · rw [if_pos hd]
      simp only [hasRejection, List.any_cons, List.any_nil]
      constructor
      · intro _
        simp only [has_dependent_circles, decide_eq_true_eq, gt_iff_lt,
          List.length_pos] at hd
        simpa [has_dependent_circles] using hd
      · intro _
        rfl
    · rw [if_neg hd]
      simp only [hasRejection, List.any_cons, List.any_nil]
      constructor
      · intro hh
        cases hh
      · intro hne
        exfalso
        apply hd
        simp only [has_dependent_circles, decide_eq_true_eq, gt_iff_lt,
          List.length_pos]
        simpa [has_dependent_circles] using hne

/-- C4 (idempotence of rejection): a `circle_toggle` whose toggle is rejected
(selection rejected by `can_highlight_circle`, or deselection rejected by the
blocker check) leaves the room — highlight set and shape — unchanged, and the
identical call on the resulting state returns the identical result, in
particular the same rejection reason. -/
theorem toggle_rejection_idempotent (role : Role) (room : Room) (cid : CircleId)
    (hrej : hasRejection
        (handleMessage role room (Inbound.circle_toggle (some cid))).events = true) :
    (handleMessage role room (Inbound.circle_toggle (some cid))).room = room ∧
    handleMessage role ((handleMessage role room (Inbound.circle_toggle (some cid))).room)
        (Inbound.circle_toggle (some cid)) =
      handleMessage role room (Inbound.circle_toggle (some cid)) := by
  cases hp : parseCircleId cid with
  | none =>
    simp [handleMessage, hp, hasRejection] at hrej
  | some li =>
    obtain ⟨l, i⟩ := li
    by_cases hmem : cid ∈ room.highlighted
    · by_cases hd : (has_dependent_circles room l i).1 = true
      · have hroom :
            (handleMessage role room (Inbound.circle_toggle (some cid))).room = room := by
          simp [handleMessage, hp, hmem, hd]
        exact ⟨hroom, by rw [hroom]⟩
      · simp [handleMessage, hp, hmem, hd, hasRejection] at hrej
    · by_cases hc : (can_highlight_circle room l i).1 = true
      · simp [handleMessage, hp, hmem, hc, hasRejection] at hrej
      · have hroom :
            (handleMessage role room (Inbound.circle_toggle (some cid))).room = room := by
          simp [handleMessage, hp, hmem, hc]
        exact ⟨hroom, by rw [hroom]⟩

theorem toggle_rejection_idempotent_witness :
    hasRejection (handleMessage Role.player ⟨[], 5, 1⟩
        (Inbound.circle_toggle (some (serialize 1 0)))).events = true ∧
    ((handleMessage Role.player ⟨[], 5, 1⟩
        (Inbound.circle_toggle (some (serialize 1 0)))).room = ⟨[], 5, 1⟩ ∧
      handleMessage Role.player
          ((handleMessage Role.player ⟨[], 5, 1⟩
            (Inbound.circle_toggle (some (serialize 1 0)))).room)
          (Inbound.circle_toggle (some (serialize 1 0))) =
        handleMessage Role.player ⟨[], 5, 1⟩
          (Inbound.circle_toggle (some (serialize 1 0)))) :=
  ⟨by decide, toggle_rejection_idempotent Role.player ⟨[], 5, 1⟩ (serialize 1 0) (by decide)⟩

/-- C5 (reconfigure/snapshot round trip): an authorized `pyramid_config`
with positive `layers` and `bottomSize` replaces the shape and clears the
highlight set, so a subsequent snapshot is exactly
`{layers: L, bottomSize: B, highlighted: []}`, whatever was highlighted
before. -/
theorem reconfigure_snapshot_roundtrip (room : Room) (l b : Int)
    (hl : 1 ≤ l) (hb : 1 ≤ b) :
    snapshotMsg (handleMessage Role.dm room
        (Inbound.pyramid_config (some l) (some b))).room
      = Outbound.state_sync [] l.toNat b.toNat ∧
    (handleMessage Role.dm room (Inbound.pyramid_config (some l) (some b))).room
      = ⟨[], l.toNat, b.toNat⟩ := by
  have h1 : ¬ l < 1 := by omega
  have h2 : ¬ b < 1 := by omega
  constructor
  · simp [handleMessage, h1, h2, snapshotMsg, sortedHighlighted]
  · simp [handleMessage, h1, h2]

theorem reconfigure_snapshot_roundtrip_witness :
    (1 ≤ (3 : Int)) ∧ (1 ≤ (2 : Int)) ∧
    (snapshotMsg (handleMessage Role.dm ⟨[serialize 0 0, serialize 1 0], 5, 1⟩
        (Inbound.pyramid_config (some 3) (some 2))).room
      = Outbound.state_sync [] (3 : Int).toNat (2 : Int).toNat ∧
    (handleMessage Role.dm ⟨[serialize 0 0, serialize 1 0], 5, 1⟩
        (Inbound.pyramid_config (some 3) (some 2))).room
      = ⟨[], (3 : Int).toNat, (2 : Int).toNat⟩) :=
  ⟨by decide, by decide,
    reconfigure_snapshot_roundtrip ⟨[serialize 0 0, serialize 1 0], 5, 1⟩ 3 2
      (by decide) (by decide)⟩

/-- C6 (one outbound effect per message): every inbound message handled by
the Active receive loop produces exactly one send effect — a room-wide
broadcast for an applied `circle_toggle` or an authorized valid
`pyramid_config`, otherwise a private reply to the sender — never both,
never neither, and no message terminates the loop. -/
theorem message_single_effect (role : Role) (room : Room) (msg : Inbound) :
    (∃ t m, sendEvents (handleMessage role room msg).events = [(t, m)] ∧
      ((t = Target.roomAll ∧ broadcastClass m = true) ∨
       (t = Target.sender ∧ replyClass m = true))) ∧
    (handleMessage role room msg).continueLoop = true := by
  cases msg with
  | malformed => exact ⟨⟨_, _, rfl, Or.inr ⟨rfl, rfl⟩⟩, rfl⟩
  | badType => exact ⟨⟨_, _, rfl, Or.inr ⟨rfl, rfl⟩⟩, rfl⟩
  | state_request => exact ⟨⟨_, _, rfl, Or.inr ⟨rfl, rfl⟩⟩, rfl⟩
  | ping => exact ⟨⟨_, _, rfl, Or.inr ⟨rfl, rfl⟩⟩, rfl⟩
  | unknown t => exact ⟨⟨_, _, rfl, Or.inr ⟨rfl, rfl⟩⟩, rfl⟩
  | circle_toggle cidOpt =>
    cases cidOpt with
    | none => exact ⟨⟨_, _, rfl, Or.inr ⟨rfl, rfl⟩⟩, rfl⟩
    | some cid =>
      cases hp : parseCircleId cid with
      | none =>
        simp only [handleMessage, hp]
        exact ⟨⟨_, _, rfl, Or.inr ⟨rfl, rfl⟩⟩, by trivial⟩
      | some li =>
        obtain ⟨l, i⟩ := li
        simp only [handleMessage, hp]
        by_cases hmem : cid ∈ room.highlighted
        · rw [if_pos hmem]
          by_cases hd : (has_dependent_circles room l i).1 = true
          · rw [if_pos hd]
            exact ⟨⟨_, _, rfl, Or.inr ⟨rfl, rfl⟩⟩, by trivial⟩
          · rw [if_neg hd]
            exact ⟨⟨_, _, rfl, Or.inl ⟨rfl, rfl⟩⟩, by trivial⟩
        · rw [if_neg hmem]
          by_cases hc : (can_highlight_circle room l i).1 = true
          · rw [if_pos hc]
            exact ⟨⟨_, _, rfl, Or.inl ⟨rfl, rfl⟩⟩, by trivial⟩
          · rw [if_neg hc]
            exact ⟨⟨_, _, rfl, Or.inr ⟨rfl, rfl⟩⟩, by trivial⟩
  | pyramid_config lv bv =>
    by_cases hrole : role = Role.dm
    · cases lv with
      | none =>
        simp only [handleMessage, if_pos hrole]
        exact ⟨⟨_, _, rfl, Or.inr ⟨rfl, rfl⟩⟩, by trivial⟩
      | some l =>
        by_cases hl : l < 1
        · simp only [handleMessage, if_pos hrole, if_pos hl]
          exact ⟨⟨_, _, rfl, Or.inr ⟨rfl, rfl⟩⟩, by trivial⟩
        · cases bv with
          | none =>
            simp only [handleMessage, if_pos hrole, if_neg hl]
            exact ⟨⟨_, _, rfl, Or.inr ⟨rfl, rfl⟩⟩, by trivial⟩
          | some b =>
            by_cases hbb : b < 1
            · simp only [handleMessage, if_pos hrole, if_neg hl, if_pos hbb]
              exact ⟨⟨_, _, rfl, Or.inr ⟨rfl, rfl⟩⟩, by trivial⟩
            · simp only [handleMessage, if_pos hrole, if_neg hl, if_neg hbb]
              exact ⟨⟨_, _, rfl, Or.inl ⟨rfl, rfl⟩⟩, by trivial⟩
    · simp only [handleMessage, if_neg hrole]
      exact ⟨⟨_, _, rfl, Or.inr ⟨rfl, rfl⟩⟩, by trivial⟩

/-- Counterexample to C3 as stated: with `bottomSize = 1` the spec formula
`0 .. (bottomSize + L - 1) - 1` makes layer 0 empty (width 0), yet the
engine's `layer_below_size` for a cell at layer 1 is 1, it admits index 0 of
layer 0 as an adjacency-below cell, and a highlight on `0-0` really does
support selecting `1-0`; the spec's width for a layer is one short of the
bound the engine enforces. -/
theorem layer_width_claim_cex :
    spec_layer_width 1 0 = 0 ∧
    layer_below_size ⟨[], 5, 1⟩ 1 = 1 ∧
    spec_layer_width 1 0 ≠ layer_below_size ⟨[], 5, 1⟩ 1 ∧
    (0, 0) ∈ connectedBelow ⟨[], 5, 1⟩ 1 0 ∧
    (can_highlight_circle ⟨[serialize 0 0], 5, 1⟩ 1 0).1 = true := by
  decide

/-- C3 as amended: the valid indices of layer `L` are `0 .. (bottomSize + L)
- 1`, i.e. each layer going up is one slot larger than the layer below,
anchored to `bottomSize` as the width of layer 0; this width of layer `L - 1`
is exactly the `layer_below_size` bound the engine applies to a cell at layer
`L`, both for the `(L-1, i)` neighbour and (when `i > 0`) the `(L-1, i-1)`
neighbour. -/
theorem layer_width_amended (room : Room) (layer index : Nat) (hpos : 0 < layer) :
    layer_below_size room layer = engine_layer_width room.bottom_size (layer - 1) ∧
    engine_layer_width room.bottom_size 0 = room.bottom_size ∧
    engine_layer_width room.bottom_size layer
      = engine_layer_width room.bottom_size (layer - 1) + 1 ∧
    ((layer - 1, index) ∈ connectedBelow room layer index ↔
      index < engine_layer_width room.bottom_size (layer - 1)) ∧
    (0 < index →
      (((layer - 1, index - 1) ∈ connectedBelow room layer index) ↔
        index - 1 < engine_layer_width room.bottom_size (layer - 1))) := by
  refine ⟨rfl, rfl, ?_, ?_, ?_⟩
  · simp only [engine_layer_width]
    omega
  · rw [mem_connectedBelow]
    constructor
    · rintro (⟨⟨hpi, -⟩, heq⟩ | ⟨hlt, -⟩)
      · have : index = index - 1 := congrArg Prod.snd heq
        omega
      · exact hlt
    · intro hlt
      exact Or.inr ⟨hlt, rfl⟩
  · intro hpi
    rw [mem_connectedBelow]
    constructor
    · rintro (⟨⟨-, hlt⟩, -⟩ | ⟨-, heq⟩)
      · exact hlt
      · have : index - 1 = index := congrArg Prod.snd heq
        omega
    · intro hlt
      exact Or.inl ⟨⟨hpi, hlt⟩, rfl⟩

theorem layer_width_amended_witness :
    0 < 2 ∧
    (layer_below_size ⟨[], 5, 3⟩ 2 = engine_layer_width (⟨[], 5, 3⟩ : Room).bottom_size (2 - 1) ∧
    engine_layer_width (⟨[], 5, 3⟩ : Room).bottom_size 0 = (⟨[], 5, 3⟩ : Room).bottom_size ∧
    engine_layer_width (⟨[], 5, 3⟩ : Room).bottom_size 2
      = engine_layer_width (⟨[], 5, 3⟩ : Room).bottom_size (2 - 1) + 1 ∧
    ((2 - 1, 1) ∈ connectedBelow ⟨[], 5, 3⟩ 2 1 ↔
      1 < engine_layer_width (⟨[], 5, 3⟩ : Room).bottom_size (2 - 1)) ∧
    (0 < 1 →
      (((2 - 1, 1 - 1) ∈ connectedBelow ⟨[], 5, 3⟩ 2 1) ↔
        1 - 1 < engine_layer_width (⟨[], 5, 3⟩ : Room).bottom_size (2 - 1)))) :=
  ⟨by decide, layer_width_amended ⟨[], 5, 3⟩ 2 1 (by decide)⟩

theorem foldl_collect_failures (p : ClientId → Bool) (l : List ClientId) :
    ∀ acc : List ClientId,
      l.foldl (fun d c => if p c then d else d ++ [c]) acc
        = acc ++ l.filter (fun c => !(p c)) := by
  induction l with
  | nil => intro acc; simp
  | cons c cs ih =>
    intro acc
    simp only [List.foldl_cons, List.filter_cons]
    by_cases hc : p c = true
    · rw [if_pos hc, ih]
      simp [hc]
    · rw [if_neg hc, ih]
      have hnc : p c = false := by
        cases hpc : p c
        · rfl
        · exact absurd hpc hc
      simp [hnc]

theorem foldl_discard (ds : List ClientId) : ∀ cs : List ClientId,
    ds.foldl (fun cs c => cs.filter (fun x => decide (x ≠ c))) cs
      = cs.filter (fun x => decide (x ∉ ds)) := by
  induction ds with
  | nil =>
    intro cs
    simp
  | cons d ds ih =>
    intro cs
    simp only [List.foldl_cons]
    rw [ih, List.filter_filter]
    apply List.filter_congr
    intro x _
    by_cases h1 : x = d <;> by_cases h2 : x ∈ ds <;> simp [h1, h2]

/-- C7 (broadcast fan-out): a broadcast to room `r` attempts delivery exactly
once to every client registered in `r` at the start of the fan-out (and to
nobody else), swallows delivery failures instead of raising them, removes
exactly the failed clients from `r`'s registry, and leaves every other
room's registry untouched. -/
theorem broadcast_fanout_spec (reg : RoomId → List ClientId) (r : RoomId)
    (deliver : ClientId → Option Unit) (hnd : (reg r).Nodup) :
    (broadcastRoom reg r deliver).2 = reg r ∧
    (∀ c ∈ reg r, (broadcastRoom reg r deliver).2.count c = 1) ∧
    (∀ c, c ∉ reg r → (broadcastRoom reg r deliver).2.count c = 0) ∧
    (broadcastRoom reg r deliver).1 r
      = (reg r).filter (fun c => safe_send deliver c) ∧
    (∀ r2, r2 ≠ r → (broadcastRoom reg r deliver).1 r2 = reg r2) := by
  refine ⟨rfl, ?_, ?_, ?_, ?_⟩
  · intro c hc
    exact List.count_eq_one_of_mem hnd hc
  · intro c hc
    exact List.count_eq_zero_of_not_mem hc
  · show (if r = r then (broadcastClients deliver (reg r)).2 else reg r) = _
    rw [if_pos rfl]
    show (List.foldl _ []
        (reg r)).foldl (fun cs c => cs.filter (fun x => decide (x ≠ c))) (reg r) = _
    rw [foldl_collect_failures, List.nil_append, foldl_discard]
    apply List.filter_congr
    intro x hx
    by_cases hs : safe_send deliver x = true
    · simp [List.mem_filter, hs]
    · have hns : safe_send deliver x = false := by
        cases hsx : safe_send deliver x
        · rfl
        · exact absurd hsx hs
      simp [List.mem_filter, hns, hx]
  · intro r2 hr2
    show (if r2 = r then _ else reg r2) = reg r2
    rw [if_neg hr2]

theorem broadcast_fanout_spec_witness :
    ((fun rid => if rid = 0 then [1, 2, 3] else [9]) (0 : RoomId)).Nodup ∧
    ((broadcastRoom (fun rid => if rid = 0 then [1, 2, 3] else [9]) 0
        (fun c => if c = 2 then none else some ())).2
      = (fun rid => if rid = 0 then [1, 2, 3] else [9]) (0 : RoomId) ∧
    (∀ c ∈ (fun rid => if rid = 0 then [1, 2, 3] else [9]) (0 : RoomId),
      (broadcastRoom (fun rid => if rid = 0 then [1, 2, 3] else [9]) 0
        (fun c => if c = 2 then none else some ())).2.count c = 1) ∧
    (∀ c, c ∉ (fun rid => if rid = 0 then [1, 2, 3] else [9]) (0 : RoomId) →
      (broadcastRoom (fun rid => if rid = 0 then [1, 2, 3] else [9]) 0
        (fun c => if c = 2 then none else some ())).2.count c = 0) ∧
    (broadcastRoom (fun rid => if rid = 0 then [1, 2, 3] else [9]) 0
        (fun c => if c = 2 then none else some ())).1 0
      = ((fun rid => if rid = 0 then [1, 2, 3] else [9]) (0 : RoomId)).filter
          (fun c => safe_send (fun c => if c = 2 then none else some ()) c) ∧
    (∀ r2, r2 ≠ 0 →
      (broadcastRoom (fun rid => if rid = 0 then [1, 2, 3] else [9]) 0
        (fun c => if c = 2 then none else some ())).1 r2
        = (fun rid => if rid = 0 then [1, 2, 3] else [9]) r2)) :=
  ⟨by decide,
    broadcast_fanout_spec (fun rid => if rid = 0 then [1, 2, 3] else [9]) 0
      (fun c => if c = 2 then none else some ()) (by decide)⟩

/-- Counterexample to C8 as stated: rejecting the selection of `1-0` in a
fresh room sends the `toggle_rejected` reply while `room.lock` is still held
(the `continue` sits inside the `async with` block), so the session does
perform a network send under the mutation guard. -/
theorem guard_send_counterexample :
    (sendsWithHeld false (handleMessage Role.player ⟨[], 5, 1⟩
        (Inbound.circle_toggle (some (serialize 1 0)))).events).any
      (fun p => p.2.2) = true := by
  decide

/-- C8 as amended: the room-wide broadcasts (`circle_toggled`,
`config_sync`) are always sent after the guard is released, and the only
sends ever performed while the guard is held are the private
`toggle_rejected` replies on policy rejection. -/
theorem guard_send_amended (role : Role) (room : Room) (msg : Inbound) :
    ∀ p ∈ sendsWithHeld false (handleMessage role room msg).events,
      (broadcastClass p.2.1 = true → p.2.2 = false) ∧
      (p.2.2 = true → p.1 = Target.sender ∧ isToggleRejected p.2.1 = true) := by
  cases msg with
  | malformed =>
    intro p hp
    simp only [handleMessage, sendsWithHeld, List.mem_singleton] at hp
    subst hp
    exact ⟨fun _ => rfl, fun h => nomatch h⟩
  | badType =>
    intro p hp
    simp only [handleMessage, sendsWithHeld, List.mem_singleton] at hp
    subst hp
    exact ⟨fun _ => rfl, fun h => nomatch h⟩
  | state_request =>
    intro p hp
    simp only [handleMessage, sendsWithHeld, List.mem_singleton] at hp
    subst hp
    exact ⟨fun _ => rfl, fun h => nomatch h⟩
  | ping =>
    intro p hp
    simp only [handleMessage, sendsWithHeld, List.mem_singleton] at hp
    subst hp
    exact ⟨fun _ => rfl, fun h => nomatch h⟩
  | unknown t =>
    intro p hp
    simp only [handleMessage, sendsWithHeld, List.mem_singleton] at hp
    subst hp
    exact ⟨fun _ => rfl, fun h => nomatch h⟩
  | circle_toggle cidOpt =>
    cases cidOpt with
    | none =>
      intro p hp
      simp only [handleMessage, sendsWithHeld, List.mem_singleton] at hp
      subst hp
      exact ⟨fun _ => rfl, fun h => nomatch h⟩
    | some cid =>
      cases hp : parseCircleId cid with
      | none =>
        intro p hmem
        simp only [handleMessage, hp, sendsWithHeld, List.mem_singleton] at hmem
        subst hmem
        exact ⟨fun _ => rfl, fun h => nomatch h⟩
      | some li =>
        obtain ⟨l, i⟩ := li
        simp only [handleMessage, hp]
        by_cases hmem : cid ∈ room.highlighted
        · simp only [if_pos hmem]
          by_cases hd : (has_dependent_circles room l i).1 = true
          · simp only [if_pos hd]
            intro p hpm
            simp only [sendsWithHeld, List.mem_singleton] at hpm
            subst hpm
            exact ⟨(fun h => nomatch h), fun _ => ⟨rfl, rfl⟩⟩
          · simp only [if_neg hd]
            intro p hpm
            simp only [sendsWithHeld, List.mem_singleton] at hpm
            subst hpm
            exact ⟨fun _ => rfl, fun h => nomatch h⟩
        · simp only [if_neg hmem]
          by_cases hc : (can_highlight_circle room l i).1 = true
          · simp only [if_pos hc]
            intro p hpm
            simp only [sendsWithHeld, List.mem_singleton] at hpm
            subst hpm
            exact ⟨fun _ => rfl, fun h => nomatch h⟩
          · simp only [if_neg hc]
            intro p hpm
            simp only [sendsWithHeld, List.mem_singleton] at hpm
            subst hpm
            exact ⟨(fun h => nomatch h), fun _ => ⟨rfl, rfl⟩⟩
  | pyramid_config lv bv =>
    by_cases hrole : role = Role.dm
    · cases lv with
      | none =>
        intro p hpm
        simp only [handleMessage, if_pos hrole, sendsWithHeld, List.mem_singleton] at hpm
        subst hpm
        exact ⟨fun _ => rfl, fun h => nomatch h⟩
      | some l =>
        by_cases hl : l < 1
        · intro p hpm
          simp only [handleMessage, if_pos hrole, if_pos hl, sendsWithHeld,
            List.mem_singleton] at hpm
          subst hpm
          exact ⟨fun _ => rfl, fun h => nomatch h⟩
        · cases bv with
          | none =>
            intro p hpm
            simp only [handleMessage, if_pos hrole, if_neg hl, sendsWithHeld,
              List.mem_singleton] at hpm
            subst hpm
            exact ⟨fun _ => rfl, fun h => nomatch h⟩
          | some b =>
            by_cases hbb : b < 1
            · intro p hpm
              simp only [handleMessage, if_pos hrole, if_neg hl, if_pos hbb,
                sendsWithHeld, List.mem_singleton] at hpm
              subst hpm
              exact ⟨fun _ => rfl, fun h => nomatch h⟩
            · intro p hpm
              simp only [handleMessage, if_pos hrole, if_neg hl, if_neg hbb,
                sendsWithHeld, List.mem_singleton] at hpm
              subst hpm
              exact ⟨fun _ => rfl, fun h => nomatch h⟩
    · intro p hpm
      simp only [handleMessage, if_neg hrole, sendsWithHeld, List.mem_singleton] at hpm
      subst hpm
      exact ⟨fun _ => rfl, fun h => nomatch h⟩

theorem guard_send_amended_witness :
    ((Target.sender, Outbound.toggle_rejected (serialize 1 0)
        (RejectReason.cannotSelect (Reason.noConnected [serialize 0 0])), true) ∈
      sendsWithHeld false (handleMessage Role.player ⟨[], 5, 1⟩
        (Inbound.circle_toggle (some (serialize 1 0)))).events) ∧
    ((broadcastClass (Outbound.toggle_rejected (serialize 1 0)
        (RejectReason.cannotSelect (Reason.noConnected [serialize 0 0]))) = true →
      true = false) ∧
     (true = true →
      Target.sender = Target.sender ∧
      isToggleRejected (Outbound.toggle_rejected (serialize 1 0)
        (RejectReason.cannotSelect (Reason.noConnected [serialize 0 0]))) = true)) :=
  ⟨by decide,
    guard_send_amended Role.player ⟨[], 5, 1⟩
      (Inbound.circle_toggle (some (serialize 1 0)))
      (Target.sender, Outbound.toggle_rejected (serialize 1 0)
        (RejectReason.cannotSelect (Reason.noConnected [serialize 0 0])), true)
      (by decide)⟩

theorem room_update_layers_highlighted (room : Room) (n : Nat) :
    ({ room with layers := n } : Room).highlighted = room.highlighted := rfl

theorem can_highlight_circle_layers_irrel (room : Room) (n layer index : Nat) :
    can_highlight_circle { room with layers := n } layer index
      = can_highlight_circle room layer index := rfl

theorem has_dependent_circles_layers_irrel (room : Room) (n layer index : Nat) :
    has_dependent_circles { room with layers := n } layer index
      = has_dependent_circles room layer index := rfl

/-- C9 (no validation of the toggled cell against the shape): the
`circle_toggle` handler never consults `room.layers` — its entire outcome is
unchanged under any value of `layers` — and a layer-`0` cell that is not
currently highlighted is always applied and added to the set, for every
index, including indices at or beyond the width of layer 0, so the set can
hold cells outside the pyramid. -/
theorem toggle_no_shape_validation :
    (∀ (room : Room) (role : Role) (cid : CircleId) (n : Nat),
      handleMessage role { room with layers := n } (Inbound.circle_toggle (some cid)) =
        ⟨{ (handleMessage role room (Inbound.circle_toggle (some cid))).room with
            layers := n },
         (handleMessage role room (Inbound.circle_toggle (some cid))).events,
         (handleMessage role room (Inbound.circle_toggle (some cid))).continueLoop⟩) ∧
    (∀ (room : Room) (role : Role) (index : Nat),
      serialize 0 index ∉ room.highlighted →
      handleMessage role room (Inbound.circle_toggle (some (serialize 0 index))) =
        ⟨{ room with highlighted := room.highlighted ++ [serialize 0 index] },
         [Event.acquire, Event.release,
          Event.send Target.roomAll (Outbound.circle_toggled (serialize 0 index) true)],
         true⟩) := by
  constructor
  · intro room role cid n
    cases hp : parseCircleId cid with
    | none => simp [handleMessage, hp]
    | some li =>
      obtain ⟨l, i⟩ := li
      simp only [handleMessage, hp, room_update_layers_highlighted,
        can_highlight_circle_layers_irrel, has_dependent_circles_layers_irrel]
      by_cases hmem : cid ∈ room.highlighted
      · simp only [if_pos hmem]
        by_cases hd : (has_dependent_circles room l i).1 = true
        · simp only [if_pos hd]
        · simp only [if_neg hd]
      · simp only [if_neg hmem]
        by_cases hc : (can_highlight_circle room l i).1 = true
        · simp only [if_pos hc]
        · simp only [if_neg hc]
  · intro room role index hni
    have hch : can_highlight_circle room 0 index = (true, Reason.bottomLayer) := by
      simp [can_highlight_circle]
    simp only [handleMessage, parseCircleId_serialize, if_neg hni, hch]
    simp

theorem toggle_no_shape_validation_witness :
    (serialize 0 7 ∉ (⟨[], 5, 1⟩ : Room).highlighted) ∧
    handleMessage Role.player ⟨[], 5, 1⟩
        (Inbound.circle_toggle (some (serialize 0 7))) =
      ⟨{ (⟨[], 5, 1⟩ : Room) with
          highlighted := (⟨[], 5, 1⟩ : Room).highlighted ++ [serialize 0 7] },
       [Event.acquire, Event.release,
        Event.send Target.roomAll (Outbound.circle_toggled (serialize 0 7) true)],
       true⟩ :=
  ⟨by decide, toggle_no_shape_validation.2 ⟨[], 5, 1⟩ Role.player 7 (by decide)⟩

/-- C10 (verbatim storage vs canonical membership): `"00-0"` parses to the
same cell as the canonical `"0-0"` but is a distinct string; toggling it
while `"0-0"` is highlighted adds it as an independent member; a highlight
stored under the non-canonical spelling provides no adjacency support, while
the canonical one does; and the deselection simulation subtracts the
re-serialized canonical id, so deselecting `"00-0"` in a room highlighting
`{"0-0", "00-0", "1-0"}` is rejected with blocker `"1-0"` (the simulation
removed `"0-0"`, not the stored string `"00-0"`). -/
theorem verbatim_storage_canonical_membership :
    (parseCircleId ['0', '0', '-', '0'] = some (0, 0) ∧
      ['0', '0', '-', '0'] ≠ serialize 0 0) ∧
    ((handleMessage Role.player ⟨[serialize 0 0], 5, 1⟩
        (Inbound.circle_toggle (some ['0', '0', '-', '0']))).room.highlighted
      = [serialize 0 0, ['0', '0', '-', '0']]) ∧
    ((can_highlight_circle ⟨[['0', '0', '-', '0']], 5, 1⟩ 1 0).1 = false ∧
     (can_highlight_circle ⟨[serialize 0 0], 5, 1⟩ 1 0).1 = true) ∧
    (has_dependent_circles ⟨[serialize 0 0, ['0', '0', '-', '0'], serialize 1 0], 5, 1⟩ 0 0
        = (true, [serialize 1 0]) ∧
     hasRejection (handleMessage Role.player
        ⟨[serialize 0 0, ['0', '0', '-', '0'], serialize 1 0], 5, 1⟩
        (Inbound.circle_toggle (some ['0', '0', '-', '0']))).events = true) := by
  decide

theorem has_dependent_circles_spec_witness :
    (∀ id ∈ (⟨[serialize 0 0, serialize 1 0], 3, 3⟩ : Room).highlighted,
      (parseCircleId id).isSome) ∧
    (((has_dependent_circles ⟨[serialize 0 0, serialize 1 0], 3, 3⟩ 0 0).1 = true ↔
      (has_dependent_circles ⟨[serialize 0 0, serialize 1 0], 3, 3⟩ 0 0).2 ≠ []) ∧
    (∀ h, h ∈ (has_dependent_circles ⟨[serialize 0 0, serialize 1 0], 3, 3⟩ 0 0).2 ↔
      (h ∈ (⟨[serialize 0 0, serialize 1 0], 3, 3⟩ : Room).highlighted ∧
        ∃ hl hi, parseCircleId h = some (hl, hi) ∧ 0 < hl ∧
        ¬ ((0 < hi ∧ hi - 1 < (⟨[serialize 0 0, serialize 1 0], 3, 3⟩ : Room).bottom_size + (hl - 1) ∧
              serialize (hl - 1) (hi - 1) ∈
                setDiff (⟨[serialize 0 0, serialize 1 0], 3, 3⟩ : Room).highlighted (serialize 0 0)) ∨
           (hi < (⟨[serialize 0 0, serialize 1 0], 3, 3⟩ : Room).bottom_size + (hl - 1) ∧
              serialize (hl - 1) hi ∈
                setDiff (⟨[serialize 0 0, serialize 1 0], 3, 3⟩ : Room).highlighted (serialize 0 0))))) ∧
    (∀ h ∈ (has_dependent_circles ⟨[serialize 0 0, serialize 1 0], 3, 3⟩ 0 0).2,
      ∀ hl hi, parseCircleId h = some (hl, hi) → 0 < hl) ∧
    (∀ cid, cid ∈ (⟨[serialize 0 0, serialize 1 0], 3, 3⟩ : Room).highlighted →
      parseCircleId cid = some (0, 0) →
      (hasRejection (handleMessage Role.player ⟨[serialize 0 0, serialize 1 0], 3, 3⟩
          (Inbound.circle_toggle (some cid))).events = true ↔
        (has_dependent_circles ⟨[serialize 0 0, serialize 1 0], 3, 3⟩ 0 0).2 ≠ []))) :=
  ⟨by decide,
    has_dependent_circles_spec ⟨[serialize 0 0, serialize 1 0], 3, 3⟩ 0 0 Role.player
      (by decide)⟩
